import Mathlib

/-!
Shallow embedding of `rotors.go` from the `enigma` package: the `Rotor`
and `Reflector` data types, their `Step` / `Reflect` operations, and the
two static catalogs `Rotors` and `Reflectors`.

Go specifics mirrored here:
* a Go `string` of A–Z wiring data is embedded as a `List Char`
  (`"…".toList`); Go byte indexing `s[i]` is `charAt`;
* Go's `%` on `int` truncates toward zero, which is `Int.tmod`;
* `strings.IndexRune` returns the first index of the rune, or `-1`
  when absent, which is `indexRune`;
* the `map[rune]bool` notch set built by `NewRotor` is embedded as the
  list of notch runes, tested by membership (`List.contains`), which
  agrees with Go map lookup defaulting to `false`;
* `Step` and `Reflect` take the receiver by pointer but never assign to
  its fields; `Step` is embedded as returning the (unchanged) rotor
  together with the new value written through the `letter` pointer.
-/

namespace Enigma

/-- The 26-letter uppercase alphabet, in order. -/
def alphabet : List Char := "ABCDEFGHIJKLMNOPQRSTUVWXYZ".toList

/-- Modelled from the spec: the supporting conversion letter → zero-based
alphabet position (A→0 … Z→25).  The function `ToInt` is called by
`rotors.go` but its definition is not among the provided sources. -/
def ToInt (c : Char) : Int := (c.toNat : Int) - 65

/-- Modelled from the spec: the supporting conversion zero-based alphabet
position → letter (0→A … 25→Z).  The function `ToChar` is called by
`rotors.go` but its definition is not among the provided sources. -/
def ToChar (n : Int) : Char := Char.ofNat (n + 65).toNat

/-- Go `strings.IndexRune`: index of the first occurrence of `c` in `s`,
or `-1` when `c` does not occur. -/
def indexRune (s : List Char) (c : Char) : Int :=
  if c ∈ s then (s.indexOf c : Int) else -1

/-- Go byte indexing `s[number]` on an ASCII wiring string (each byte is
the letter).  Out-of-range access panics in Go; all uses below are
in-range, so the default value is never produced there. -/
def charAt (s : List Char) (n : Int) : Char := s.getD n.toNat 'A'

/-- `type Rotor struct { Sequence string; Offset, Ring int; Notch map[rune]bool }`. -/
structure Rotor where
  Sequence : List Char
  Offset : Int
  Ring : Int
  Notch : List Char
deriving DecidableEq

/-- `func NewRotor(mapping string, notch []rune) *Rotor`: offset and ring
start at 0, the notch runes become the notch set. -/
def NewRotor (mapping : List Char) (notch : List Char) : Rotor :=
  ⟨mapping, 0, 0, notch⟩

/-- `func (r *Rotor) Step(letter *rune, invert bool)`.  The Go body reads
the receiver's fields and writes only through `letter`; the result pair is
(receiver after the call, value written through `letter`). -/
def Step (r : Rotor) (letter : Char) (invert : Bool) : Rotor × Char :=
  let number := (ToInt letter - r.Ring + r.Offset + 26).tmod 26
  let number2 := if invert then indexRune r.Sequence (ToChar number)
                 else ToInt (charAt r.Sequence number)
  (r, ToChar ((number2 + r.Ring - r.Offset + 26).tmod 26))

/-- The `Rotors` catalog: a read-only map from identifier to rotor,
embedded as an association list. -/
def Rotors : List (String × Rotor) :=
  [("I",     NewRotor "EKMFLGDQVZNTOWYHXUSPAIBRCJ".toList ['Q']),
   ("II",    NewRotor "AJDKSIRUXBLHWTMCQGZNPYFVOE".toList ['E']),
   ("III",   NewRotor "BDFHJLCPRTXVZNYEIWGAKMUSQO".toList ['V']),
   ("IV",    NewRotor "ESOVPZJAYQUIRHXLNFTGKDCMWB".toList ['J']),
   ("V",     NewRotor "VZBRGITYUPSDNHLXAWMJQOFECK".toList ['Z']),
   ("VI",    NewRotor "JPGVOUMFYQBENHZRDKASXLICTW".toList ['Z', 'M']),
   ("VII",   NewRotor "NZJHGRCXMYSWBOUFAIVLPEKQDT".toList ['Z', 'M']),
   ("VIII",  NewRotor "FKQHTLXOCBJSPDZRAMEWNIUYGV".toList ['Z', 'M']),
   ("Beta",  NewRotor "LEYJVCNIXWPBQMDRTAKZGFUHOS".toList []),
   ("Gamma", NewRotor "FSOKANUERHMBTIYCWLQPZXVGJD".toList [])]

/-- `type Reflector struct { Sequence string }`. -/
structure Reflector where
  Sequence : List Char
deriving DecidableEq

/-- `func (r *Reflector) Reflect(letter *rune)`:
`*letter = ToChar(strings.IndexRune(r.Sequence, *letter))`. -/
def Reflect (r : Reflector) (letter : Char) : Char :=
  ToChar (indexRune r.Sequence letter)

/-- The `Reflectors` catalog: a read-only map from identifier to
reflector, embedded as an association list. -/
def Reflectors : List (String × Reflector) :=
  [("A",      ⟨"EJMZALYXVBWFCRQUONTSPIKHGD".toList⟩),
   ("B",      ⟨"YRUHQSLDPXNGOKMIEBFZCWVJAT".toList⟩),
   ("C",      ⟨"FVPJIAOYEDRZXWGCTKUQSBNMHL".toList⟩),
   ("B-Thin", ⟨"ENKQAUYWJICOPBLMDXZVFTHRGS".toList⟩),
   ("C-Thin", ⟨"RDOBJNTKVEHMLFCWZAXGYIPSUQ".toList⟩)]

/-- Modelled from the spec: the notch test — whether the current absolute
letter at the rotor's top position (derived from `Offset`, independent of
`Ring`) is a member of the notch set.  The stepping driver that consults
`r.Notch` is not among the provided sources. -/
def atNotch (r : Rotor) : Bool := r.Notch.contains (ToChar r.Offset)

/-- Definition following the spec's words (§4.1 Substitution operation):
`shifted = (letterPos - ring + offset + 26) mod 26` with mathematical
(nonnegative) `mod`; forward, `n` is the alphabet position of
`sequence[shifted]`; inverse, `n` is the index at which `sequence` holds
the letter for `shifted`; the output letter is
`(n + ring - offset + 26) mod 26`. -/
def stepSpec (r : Rotor) (letter : Char) (invert : Bool) : Char :=
  let shifted := (ToInt letter - r.Ring + r.Offset + 26) % 26
  let n := if invert then indexRune r.Sequence (ToChar shifted)
           else ToInt (charAt r.Sequence shifted)
  ToChar ((n + r.Ring - r.Offset + 26) % 26)

/-- A reflector whose wiring is a permutation but not an involution, used
to separate the two possible readings of `Reflect`. -/
def shiftedReflector : Reflector := ⟨"BCDEFGHIJKLMNOPQRSTUVWXYZA".toList⟩

theorem alphabet_nodup : alphabet.Nodup := by decide

theorem alphabet_length : alphabet.length = 26 := by decide

theorem toInt_bounds : ∀ c ∈ alphabet, 0 ≤ ToInt c ∧ ToInt c < 26 := by decide

theorem toChar_toInt : ∀ c ∈ alphabet, ToChar (ToInt c) = c := by decide

theorem toInt_toChar (n : Int) (h0 : 0 ≤ n) (h1 : n < 26) :
    ToInt (ToChar n) = n := by
  interval_cases n <;> decide

theorem toChar_mem_alphabet (n : Int) (h0 : 0 ≤ n) (h1 : n < 26) :
    ToChar n ∈ alphabet := by
  interval_cases n <;> decide

theorem charAt_mem (s : List Char) (i : Int) (h : i.toNat < s.length) :
    charAt s i ∈ s := by
  unfold charAt
  rw [List.getD_eq_getElem s 'A' h]
  exact List.getElem_mem h

theorem indexRune_charAt (s : List Char) (hnd : s.Nodup) (i : Int)
    (h0 : 0 ≤ i) (h : i.toNat < s.length) :
    indexRune s (charAt s i) = i := by
  unfold charAt indexRune
  rw [List.getD_eq_getElem s 'A' h, if_pos (List.getElem_mem h),
    List.indexOf_getElem hnd i.toNat h]
  exact_mod_cast Int.toNat_of_nonneg h0

theorem indexRune_bounds (s : List Char) (c : Char) (h : c ∈ s) :
    0 ≤ indexRune s c ∧ indexRune s c < s.length := by
  unfold indexRune
  rw [if_pos h]
  refine ⟨Int.ofNat_nonneg _, ?_⟩
  exact_mod_cast List.indexOf_lt_length.mpr h

theorem Step_false (r : Rotor) (c : Char) :
    (Step r c false).2 =
      ToChar ((ToInt (charAt r.Sequence
        ((ToInt c - r.Ring + r.Offset + 26).tmod 26)) +
        r.Ring - r.Offset + 26).tmod 26) := rfl

theorem Step_true (r : Rotor) (c : Char) :
    (Step r c true).2 =
      ToChar ((indexRune r.Sequence (ToChar
        ((ToInt c - r.Ring + r.Offset + 26).tmod 26)) +
        r.Ring - r.Offset + 26).tmod 26) := rfl

/-- C1: for every rotor whose wiring is a permutation of the 26 letters
and whose offset and ring lie in [0,26), stepping a letter forward
(`invert = false`) and then stepping the result backward (`invert = true`)
with unchanged rotor state returns the original letter. -/
theorem step_round_trip (r : Rotor) (hs : r.Sequence.Perm alphabet)
    (ho0 : 0 ≤ r.Offset) (ho1 : r.Offset < 26)
    (hg0 : 0 ≤ r.Ring) (hg1 : r.Ring < 26)
    (c : Char) (hc : c ∈ alphabet) :
    (Step r (Step r c false).2 true).2 = c := by
  obtain ⟨s, o, g, nt⟩ := r
  dsimp only at hs ho0 ho1 hg0 hg1
  have hlen : s.length = 26 := hs.length_eq.trans alphabet_length
  have hnd : s.Nodup := hs.nodup_iff.mpr alphabet_nodup
  obtain ⟨hx0, hx1⟩ := toInt_bounds c hc
  rw [Step_false, Step_true]
  dsimp only
  rw [Int.tmod_eq_emod (a := ToInt c - g + o + 26) (by omega) (by omega)]
  set a1 := (ToInt c - g + o + 26) % 26 with ha1
  have ha1b : 0 ≤ a1 ∧ a1 < 26 := by omega
  have hanat : a1.toNat < s.length := by omega
  have hmem1 : charAt s a1 ∈ alphabet := hs.mem_iff.mp (charAt_mem s a1 hanat)
  obtain ⟨hf0, hf1⟩ := toInt_bounds _ hmem1
  rw [Int.tmod_eq_emod (a := ToInt (charAt s a1) + g - o + 26) (by omega) (by omega)]
  set b := (ToInt (charAt s a1) + g - o + 26) % 26 with hb
  have hbb : 0 ≤ b ∧ b < 26 := by omega
  rw [toInt_toChar b hbb.1 hbb.2]
  rw [Int.tmod_eq_emod (a := b - g + o + 26) (by omega) (by omega)]
  have h4 : (b - g + o + 26) % 26 = ToInt (charAt s a1) := by omega
  rw [h4, toChar_toInt _ hmem1, indexRune_charAt s hnd a1 ha1b.1 hanat]
  rw [Int.tmod_eq_emod (a := a1 + g - o + 26) (by omega) (by omega)]
  have h6 : (a1 + g - o + 26) % 26 = ToInt c := by omega
  rw [h6]
  exact toChar_toInt c hc

/-- C1 witness: round trip on a concrete rotor state. -/
theorem step_round_trip_witness :
    (Step ⟨alphabet, 3, 5, ['Q']⟩
      (Step ⟨alphabet, 3, 5, ['Q']⟩ 'A' false).2 true).2 = 'A' :=
  step_round_trip ⟨alphabet, 3, 5, ['Q']⟩ (List.Perm.refl _)
    (by decide) (by decide) (by decide) (by decide) 'A' (by decide)

theorem stepSpec_false (r : Rotor) (c : Char) :
    stepSpec r c false =
      ToChar ((ToInt (charAt r.Sequence
        ((ToInt c - r.Ring + r.Offset + 26) % 26)) +
        r.Ring - r.Offset + 26) % 26) := rfl

theorem stepSpec_true (r : Rotor) (c : Char) :
    stepSpec r c true =
      ToChar ((indexRune r.Sequence (ToChar
        ((ToInt c - r.Ring + r.Offset + 26) % 26)) +
        r.Ring - r.Offset + 26) % 26) := rfl

/-- C2: for every rotor satisfying the data-model invariant (wiring a
permutation of the 26 letters, offset and ring in [0,26)) and every
in-range letter, `Step` computes exactly the spec's index arithmetic
(`stepSpec`): shifted = (x - ring + offset + 26) mod 26, then the forward
table lookup or inverse index lookup, then (n + ring - offset + 26) mod 26. -/
theorem step_matches_stepSpec (r : Rotor) (hs : r.Sequence.Perm alphabet)
    (ho0 : 0 ≤ r.Offset) (ho1 : r.Offset < 26)
    (hg0 : 0 ≤ r.Ring) (hg1 : r.Ring < 26)
    (c : Char) (hc : c ∈ alphabet) (invert : Bool) :
    (Step r c invert).2 = stepSpec r c invert := by
  obtain ⟨s, o, g, nt⟩ := r
  dsimp only at hs ho0 ho1 hg0 hg1
  obtain ⟨hx0, hx1⟩ := toInt_bounds c hc
  have hlen : s.length = 26 := hs.length_eq.trans alphabet_length
  cases invert
  · rw [Step_false, stepSpec_false]
    dsimp only
    rw [Int.tmod_eq_emod (a := ToInt c - g + o + 26) (by omega) (by omega)]
    set a1 := (ToInt c - g + o + 26) % 26 with ha1
    have ha1b : 0 ≤ a1 ∧ a1 < 26 := by omega
    have hanat : a1.toNat < s.length := by omega
    have hmem1 : charAt s a1 ∈ alphabet := hs.mem_iff.mp (charAt_mem s a1 hanat)
    obtain ⟨hf0, hf1⟩ := toInt_bounds _ hmem1
    rw [Int.tmod_eq_emod (a := ToInt (charAt s a1) + g - o + 26) (by omega) (by omega)]
  · rw [Step_true, stepSpec_true]
    dsimp only
    rw [Int.tmod_eq_emod (a := ToInt c - g + o + 26) (by omega) (by omega)]
    set a1 := (ToInt c - g + o + 26) % 26 with ha1
    have ha1b : 0 ≤ a1 ∧ a1 < 26 := by omega
    have hch : ToChar a1 ∈ alphabet := toChar_mem_alphabet a1 ha1b.1 ha1b.2
    have hchs : ToChar a1 ∈ s := hs.mem_iff.mpr hch
    obtain ⟨hi0, hi1⟩ := indexRune_bounds s _ hchs
    rw [Int.tmod_eq_emod (a := indexRune s (ToChar a1) + g - o + 26) (by omega) (by omega)]

/-- C2 witness: agreement at a concrete rotor state, letter and direction. -/
theorem step_matches_stepSpec_witness :
    (Step ⟨alphabet, 3, 5, []⟩ 'B' true).2 = stepSpec ⟨alphabet, 3, 5, []⟩ 'B' true :=
  step_matches_stepSpec ⟨alphabet, 3, 5, []⟩ (List.Perm.refl _)
    (by decide) (by decide) (by decide) (by decide) 'B' (by decide) true

/-- C9: with the same permutation wiring and direction, two rotor states
whose (offset - ring) agree modulo 26 produce the same `Step` output on
every in-range letter. -/
theorem step_depends_on_difference (s : List Char) (hs : s.Perm alphabet)
    (o1 g1 o2 g2 : Int)
    (ho1 : 0 ≤ o1) (ho1' : o1 < 26) (hg1 : 0 ≤ g1) (hg1' : g1 < 26)
    (ho2 : 0 ≤ o2) (ho2' : o2 < 26) (hg2 : 0 ≤ g2) (hg2' : g2 < 26)
    (hd : (o1 - g1) % 26 = (o2 - g2) % 26)
    (nt1 nt2 : List Char) (c : Char) (hc : c ∈ alphabet) (invert : Bool) :
    (Step ⟨s, o1, g1, nt1⟩ c invert).2 = (Step ⟨s, o2, g2, nt2⟩ c invert).2 := by
  obtain ⟨hx0, hx1⟩ := toInt_bounds c hc
  have hlen : s.length = 26 := hs.length_eq.trans alphabet_length
  cases invert
  · rw [Step_false, Step_false]
    dsimp only
    rw [Int.tmod_eq_emod (a := ToInt c - g1 + o1 + 26) (by omega) (by omega),
      Int.tmod_eq_emod (a := ToInt c - g2 + o2 + 26) (by omega) (by omega)]
    have e1 : (ToInt c - g1 + o1 + 26) % 26 = (ToInt c - g2 + o2 + 26) % 26 := by
      omega
    rw [e1]
    set a := (ToInt c - g2 + o2 + 26) % 26 with ha
    have hab : 0 ≤ a ∧ a < 26 := by omega
    have hanat : a.toNat < s.length := by omega
    have hmem1 : charAt s a ∈ alphabet := hs.mem_iff.mp (charAt_mem s a hanat)
    obtain ⟨hf0, hf1⟩ := toInt_bounds _ hmem1
    rw [Int.tmod_eq_emod (a := ToInt (charAt s a) + g1 - o1 + 26) (by omega) (by omega),
      Int.tmod_eq_emod (a := ToInt (charAt s a) + g2 - o2 + 26) (by omega) (by omega)]
    have e2 : (ToInt (charAt s a) + g1 - o1 + 26) % 26
        = (ToInt (charAt s a) + g2 - o2 + 26) % 26 := by omega
    rw [e2]
  · rw [Step_true, Step_true]
    dsimp only
    rw [Int.tmod_eq_emod (a := ToInt c - g1 + o1 + 26) (by omega) (by omega),
      Int.tmod_eq_emod (a := ToInt c - g2 + o2 + 26) (by omega) (by omega)]
    have e1 : (ToInt c - g1 + o1 + 26) % 26 = (ToInt c - g2 + o2 + 26) % 26 := by
      omega
    rw [e1]
    set a := (ToInt c - g2 + o2 + 26) % 26 with ha
    have hab : 0 ≤ a ∧ a < 26 := by omega
    have hch : ToChar a ∈ alphabet := toChar_mem_alphabet a hab.1 hab.2
    have hchs : ToChar a ∈ s := hs.mem_iff.mpr hch
    obtain ⟨hi0, hi1⟩ := indexRune_bounds s _ hchs
    rw [Int.tmod_eq_emod (a := indexRune s (ToChar a) + g1 - o1 + 26) (by omega) (by omega),
      Int.tmod_eq_emod (a := indexRune s (ToChar a) + g2 - o2 + 26) (by omega) (by omega)]
    have e2 : (indexRune s (ToChar a) + g1 - o1 + 26) % 26
        = (indexRune s (ToChar a) + g2 - o2 + 26) % 26 := by omega
    rw [e2]

/-- C9 witness: states (offset 5, ring 2) and (offset 8, ring 5) have the
same difference modulo 26 and the same `Step` output at a concrete letter. -/
theorem step_depends_on_difference_witness :
    (Step ⟨alphabet, 5, 2, []⟩ 'C' false).2 = (Step ⟨alphabet, 8, 5, []⟩ 'C' false).2 :=
  step_depends_on_difference alphabet (List.Perm.refl _) 5 2 8 5
    (by decide) (by decide) (by decide) (by decide)
    (by decide) (by decide) (by decide) (by decide)
    (by decide) [] [] 'C' (by decide) false

/-- C3: each of the five catalog reflectors is an involution on the 26
letters: reflecting an output again returns the original letter. -/
theorem reflectors_involution :
    ∀ p ∈ Reflectors, ∀ c ∈ alphabet, Reflect p.2 (Reflect p.2 c) = c := by
  decide

/-- C3 witness: reflector B applied twice to the letter A. -/
theorem reflectors_involution_witness :
    Reflect ⟨"YRUHQSLDPXNGOKMIEBFZCWVJAT".toList⟩
      (Reflect ⟨"YRUHQSLDPXNGOKMIEBFZCWVJAT".toList⟩ 'A') = 'A' :=
  reflectors_involution ("B", ⟨"YRUHQSLDPXNGOKMIEBFZCWVJAT".toList⟩)
    (by decide) 'A' (by decide)

/-- C4 counterexample: `Reflect` is not a forward table lookup for every
reflector: on the (permutation but non-involutive) wiring
BCDEFGHIJKLMNOPQRSTUVWXYZA, `Reflect 'A'` yields Z (the index at which
the wiring holds A) rather than `sequence[ToInt 'A'] = B`. -/
theorem reflect_forward_lookup_cex :
    ¬ (Reflect shiftedReflector 'A'
        = charAt shiftedReflector.Sequence (ToInt 'A')) := by
  decide

/-- C4 amended: `Reflect` computes the inverse (index-of) lookup
`ToChar (indexRune sequence x)`; for every catalog reflector, whose wiring
is involutive, this coincides with the forward lookup
`sequence[ToInt x]` on all 26 letters. -/
theorem reflect_lookup :
    (∀ (r : Reflector) (c : Char), Reflect r c = ToChar (indexRune r.Sequence c)) ∧
    (∀ p ∈ Reflectors, ∀ c ∈ alphabet,
      Reflect p.2 c = charAt p.2.Sequence (ToInt c)) := by
  refine ⟨fun r c => rfl, by decide⟩

/-- C4 witness: on catalog reflector A the two lookups agree at letter A. -/
theorem reflect_lookup_witness :
    Reflect ⟨"EJMZALYXVBWFCRQUONTSPIKHGD".toList⟩ 'A'
      = charAt ("EJMZALYXVBWFCRQUONTSPIKHGD".toList) (ToInt 'A') :=
  reflect_lookup.2 ("A", ⟨"EJMZALYXVBWFCRQUONTSPIKHGD".toList⟩)
    (by decide) 'A' (by decide)

/-- C5: every catalog rotor's wiring has length 26 and holds each of the
26 letters exactly once. -/
theorem rotors_permutation :
    ∀ p ∈ Rotors, p.2.Sequence.length = 26 ∧
      ∀ c ∈ alphabet, p.2.Sequence.count c = 1 := by
  decide

/-- C5 witness: rotor I's wiring has length 26 and one occurrence of E. -/
theorem rotors_permutation_witness :
    (NewRotor "EKMFLGDQVZNTOWYHXUSPAIBRCJ".toList ['Q']).Sequence.length = 26 ∧
    (NewRotor "EKMFLGDQVZNTOWYHXUSPAIBRCJ".toList ['Q']).Sequence.count 'E' = 1 :=
  ⟨(rotors_permutation ("I", NewRotor "EKMFLGDQVZNTOWYHXUSPAIBRCJ".toList ['Q'])
      (by decide)).1,
   (rotors_permutation ("I", NewRotor "EKMFLGDQVZNTOWYHXUSPAIBRCJ".toList ['Q'])
      (by decide)).2 'E' (by decide)⟩

/-- C6: the catalog rotor I has notch set exactly Q, and for every offset
and ring in [0,26) the notch test is true exactly when the offset is 16. -/
theorem rotorI_notch (r : Rotor) (h : Rotors.lookup "I" = some r)
    (o : Int) (ho0 : 0 ≤ o) (ho1 : o < 26)
    (g : Int) (hg0 : 0 ≤ g) (hg1 : g < 26) :
    r.Notch = ['Q'] ∧ (atNotch { r with Offset := o, Ring := g } = true ↔ o = 16) := by
  have hI : Rotors.lookup "I"
      = some (NewRotor "EKMFLGDQVZNTOWYHXUSPAIBRCJ".toList ['Q']) := by decide
  rw [hI] at h
  injection h with h
  subst h
  refine ⟨rfl, ?_⟩
  show (['Q'].contains (ToChar o)) = true ↔ o = 16
  interval_cases o <;> decide

/-- C6 witness: rotor I at offset 16, ring 0 reports the notch. -/
theorem rotorI_notch_witness :
    (NewRotor "EKMFLGDQVZNTOWYHXUSPAIBRCJ".toList ['Q']).Notch = ['Q'] ∧
    (atNotch { NewRotor "EKMFLGDQVZNTOWYHXUSPAIBRCJ".toList ['Q'] with
        Offset := 16, Ring := 0 } = true ↔ (16 : Int) = 16) :=
  rotorI_notch _ (by decide) 16 (by decide) (by decide) 0 (by decide) (by decide)

/-- C7: `Step` returns the rotor unchanged — the Go body reads the
receiver's fields and writes only through the `letter` pointer. -/
theorem step_frame (r : Rotor) (c : Char) (invert : Bool) :
    (Step r c invert).1 = r := rfl

theorem lookup_eq_none_of_not_mem {α : Type} (l : List (String × α)) (k : String)
    (h : k ∉ l.map Prod.fst) : l.lookup k = none := by
  induction l with
  | nil => rfl
  | cons p t ih =>
    obtain ⟨pk, pv⟩ := p
    simp only [List.map_cons, List.mem_cons, not_or] at h
    obtain ⟨h1, h2⟩ := h
    have hb : (k == pk) = false := beq_eq_false_iff_ne.mpr h1
    simp [List.lookup, hb, ih h2]

/-- C8: the rotor catalog has exactly the keys I..VIII, Beta, Gamma and
the reflector catalog exactly A, B, C, B-Thin, C-Thin; looking up any
other identifier yields `none`; every stored rotor has offset 0 and
ring 0. -/
theorem catalog_contents :
    Rotors.map Prod.fst = ["I","II","III","IV","V","VI","VII","VIII","Beta","Gamma"] ∧
    Reflectors.map Prod.fst = ["A","B","C","B-Thin","C-Thin"] ∧
    (∀ k : String, k ∉ Rotors.map Prod.fst → Rotors.lookup k = none) ∧
    (∀ k : String, k ∉ Reflectors.map Prod.fst → Reflectors.lookup k = none) ∧
    (∀ p ∈ Rotors, p.2.Offset = 0 ∧ p.2.Ring = 0) := by
  refine ⟨by decide, by decide, ?_, ?_, by decide⟩
  · intro k hk
    exact lookup_eq_none_of_not_mem _ k hk
  · intro k hk
    exact lookup_eq_none_of_not_mem _ k hk

/-- C8 witness: unknown identifiers miss both catalogs. -/
theorem catalog_contents_witness :
    Rotors.lookup "IX" = none ∧ Reflectors.lookup "D" = none :=
  ⟨catalog_contents.2.2.1 "IX" (by decide),
   catalog_contents.2.2.2.1 "D" (by decide)⟩

/-- C10: catalog rotors Beta and Gamma have empty notch sets, so the
notch test is false at every offset. -/
theorem beta_gamma_no_notch (name : String)
    (hn : name ∈ (["Beta", "Gamma"] : List String))
    (r : Rotor) (h : Rotors.lookup name = some r) :
    r.Notch = [] ∧ ∀ o : Int, atNotch { r with Offset := o } = false := by
  have hcases : name = "Beta" ∨ name = "Gamma" := by simpa using hn
  rcases hcases with rfl | rfl
  · have hB : Rotors.lookup "Beta"
        = some (NewRotor "LEYJVCNIXWPBQMDRTAKZGFUHOS".toList []) := by decide
    rw [hB] at h
    injection h with h
    subst h
    exact ⟨rfl, fun o => rfl⟩
  · have hG : Rotors.lookup "Gamma"
        = some (NewRotor "FSOKANUERHMBTIYCWLQPZXVGJD".toList []) := by decide
    rw [hG] at h
    injection h with h
    subst h
    exact ⟨rfl, fun o => rfl⟩

/-- C10 witness: rotor Beta at offset 5 does not report a notch. -/
theorem beta_gamma_no_notch_witness :
    atNotch { NewRotor "LEYJVCNIXWPBQMDRTAKZGFUHOS".toList [] with Offset := 5 } = false :=
  (beta_gamma_no_notch "Beta" (by decide)
    (NewRotor "LEYJVCNIXWPBQMDRTAKZGFUHOS".toList []) (by decide)).2 5

end Enigma
